import Mathlib

/-!
Shallow embedding of the docker-help terminal dashboard (`src/main.go`).

The program is a tview/tcell UI over the Docker client API.  The external
collaborators (Docker daemon client, the tview widget library, the Go
standard library clock and RFC3339 parser/RFC1123 formatter) are modelled
as oracle fields of an `Env` record; everything the repository itself
computes (sorting, summary building, port/duration/name formatting, the
detail and log panes, the refresh and selection handlers) is translated
directly from `main.go`.

Conventions:
* Go `time.Time` is modelled as an `Int` of nanoseconds, with `0` playing
  the role of the zero `time.Time` (`IsZero` becomes `= 0`); `time.Duration`
  is an `Int` of nanoseconds.  Go's `int(float64)` conversion truncates
  toward zero, which is `Int.tdiv` on the exactly-representable values the
  program produces.
* Go `uint16` port numbers are `Nat` (the program never arithmetically
  overflows them; it only prints them with `%d`).
* `sort.SliceStable` is modelled in full (`goSliceStable` below): Go's
  `stable` driver insertion-sorts blocks of 20 and then merges adjacent
  blocks with `symMerge`.  The per-block `insertionSort(data, a, b)` pass
  is modelled by the functional insertion sort `sliceStable` applied to
  the segment; `symMerge`'s comparison-driven binary searches, its two
  direct-insertion special cases, and `rotate`'s block-swap loop are
  translated step by step, with explicit fuel standing in for the `for`
  loops (the fuel supplied always exceeds the loops' iteration counts, so
  the model computes exactly what the Go loops compute).  This distinction
  matters: the comparison closure is not a strict weak order, so the merge
  phase genuinely behaves differently from a whole-slice insertion sort.
-/

namespace DockerHelp

/-- Port binding of the Docker API (`types.Port`): fields `IP`,
`PrivatePort`, `PublicPort`, `Type` in source order. -/
structure Port where
  IP : String
  PrivatePort : Nat
  PublicPort : Nat
  Type' : String
deriving Repr, DecidableEq, Inhabited

/-- The fields of the Docker API `types.Container` that `main.go` reads. -/
structure ContainerRecord where
  ID : String
  Names : List String
  Image : String
  State : String
  Status : String
  Ports : List Port
deriving Repr, DecidableEq, Inhabited

/-- `ContainerSummary` from `main.go`. -/
structure ContainerSummary where
  ID : String
  Name : String
  Image : String
  State : String
  Status : String
  Ports : String
deriving Repr, DecidableEq, Inhabited

/-- The `State` object of a `ContainerJSON` inspection result
(fields `Status` and `StartedAt` are the ones `main.go` reads). -/
structure InspectState where
  Status : String
  StartedAt : String
deriving Repr, DecidableEq, Inhabited

/-- Inspection result (`types.ContainerJSON`), restricted to the field
`main.go` reads. -/
structure Inspect where
  State : InspectState
deriving Repr, DecidableEq, Inhabited

/-- `firstName` from `main.go`: the first name, with one leading `/`
stripped (`strings.TrimPrefix(names[0], "/")`). -/
def firstName (names : List String) : String :=
  match names with
  | [] => ""
  | n :: _ =>
    match n.data with
    | '/' :: rest => String.mk rest
    | _ => n

/-- Lexicographic order on character lists, modelling Go's `<` on strings
(Go compares UTF-8 bytes, which for valid UTF-8 coincides with code-point
lexicographic order). -/
def ltChars : List Char → List Char → Bool
  | [], [] => false
  | [], _ :: _ => true
  | _ :: _, [] => false
  | a :: as, b :: bs => if a < b then true else if b < a then false else ltChars as bs

/-- Go's `<` on strings. -/
def strLt (s t : String) : Bool :=
  ltChars s.data t.data

/-- `nz` from `main.go`. -/
def nz (s fallback : String) : String :=
  if s = "" then fallback else s

/-- Models Go `strings.ToLower` (the program only lowercases ASCII
protocol names such as `"TCP"`, on which ASCII lowering agrees with Go). -/
def toLowerGo (s : String) : String :=
  ⟨s.toList.map Char.toLower⟩

/-- The entry `formatPorts` renders for one binding
(`fmt.Sprintf("%s:%d->%d/%s", ...)` resp. `fmt.Sprintf("%d/%s", ...)`). -/
def portEntry (p : Port) : String :=
  if p.PublicPort > 0 then
    nz p.IP "0.0.0.0" ++ ":" ++ toString p.PublicPort ++ "->" ++
      toString p.PrivatePort ++ "/" ++ toLowerGo p.Type'
  else
    toString p.PrivatePort ++ "/" ++ toLowerGo p.Type'

/-- `formatPorts` from `main.go`: `-` on an empty list, otherwise the
entries accumulated in input order and joined with `", "`. -/
def formatPorts (ports : List Port) : String :=
  if ports.isEmpty then "-"
  else String.intercalate ", " (ports.foldl (fun out p => out ++ [portEntry p]) [])

/-- `parseTime` from `main.go`: `time.Parse(time.RFC3339Nano, s)`, returning
the zero time on error.  The RFC3339 parser itself is Go standard library
code, passed in as the oracle `parse`; the zero time is modelled as `0`. -/
def parseTime (parse : String → Option Int) (s : String) : Int :=
  match parse s with
  | none => 0
  | some t => t

/-- `since` from `main.go`.  `time.Since(t)` is `now - t` in nanoseconds;
`int(d.Seconds())` etc. truncate toward zero, i.e. `Int.tdiv`. -/
def since (now t : Int) : String :=
  let d := now - t
  if d < 60000000000 then
    toString (Int.tdiv d 1000000000) ++ " seconds"
  else if d < 3600000000000 then
    toString (Int.tdiv d 60000000000) ++ " minutes"
  else if d < 86400000000000 then
    toString (Int.tdiv d 3600000000000) ++ " hours"
  else
    toString (Int.tdiv d 86400000000000) ++ " days"

/-- The comparison closure passed to `sort.SliceStable` in `refresh`. -/
def lessCtr (ci cj : ContainerRecord) : Bool :=
  if ci.State ≠ cj.State then decide (ci.State = "running")
  else strLt (firstName ci.Names) (firstName cj.Names)

/-- One insertion step of Go's stable sort: the new element `x` enters at
the right end and swaps left past exactly the maximal suffix of elements
`y` with `less x y`. -/
def sliceStableInsert (less : α → α → Bool) (l : List α) (x : α) : List α :=
  (l.reverse.dropWhile (fun y => less x y)).reverse ++
    x :: (l.reverse.takeWhile (fun y => less x y)).reverse

/-- Functional insertion sort: the semantics of Go's `insertionSort` pass
over one block (every element enters at the right and bubbles left). -/
def sliceStable (less : α → α → Bool) (l : List α) : List α :=
  l.foldl (sliceStableInsert less) []

/-- One `data.Swap(i, j)` on the list model. -/
def swapL [Inhabited α] (l : List α) (i j : Nat) : List α :=
  (l.set i (l.get! j)).set j (l.get! i)

/-- Go `swapRange(data, a, b, n)`: swap `data[a+i]` with `data[b+i]` for
`i = 0 .. n-1`. -/
def swapRangeGo [Inhabited α] : Nat → List α → Nat → Nat → List α
  | 0, l, _, _ => l
  | n + 1, l, a, b => swapRangeGo n (swapL l a b) (a + 1) (b + 1)

/-- The block-swap loop of Go `rotate` (state `i`, `j`; stops when `i = j`
with a final `swapRange`).  The fuel always exceeds the iteration count at
every call site, so the model computes what the Go loop computes. -/
def rotateLoop [Inhabited α] : Nat → List α → Nat → Nat → Nat → List α
  | 0, l, _, _, _ => l
  | fuel + 1, l, m, i, j =>
    if i = j then swapRangeGo i l (m - i) m
    else if i > j then rotateLoop fuel (swapRangeGo j l (m - i) m) m (i - j) j
    else rotateLoop fuel (swapRangeGo i l (m - i) (m + j - i)) m i (j - i)

/-- Go `rotate(data, a, m, b)`: rotate the blocks `data[a:m]` and
`data[m:b]`, placing the second before the first. -/
def rotateGo [Inhabited α] (l : List α) (a m b : Nat) : List α :=
  rotateLoop (a + b + 1) l m (m - a) (b - m)

/-- The binary-search loop pattern of `symMerge`
(`for i < j { h := (i+j)/2; if f h { i = h+1 } else { j = h } }`). -/
def bsearchLoop (f : Nat → Bool) : Nat → Nat → Nat → Nat
  | 0, i, _ => i
  | fuel + 1, i, j =>
    if i < j then
      if f ((i + j) / 2) then bsearchLoop f fuel ((i + j) / 2 + 1) j
      else bsearchLoop f fuel i ((i + j) / 2)
    else i

/-- The swap loop `for k := a; k < i-1; k++ { swap(k, k+1) }` of
`symMerge`'s first special case. -/
def bubbleUpGo [Inhabited α] : Nat → List α → Nat → Nat → List α
  | 0, l, _, _ => l
  | fuel + 1, l, k, target =>
    if k < target then bubbleUpGo fuel (swapL l k (k + 1)) (k + 1) target else l

/-- The swap loop `for k := m; k > i; k-- { swap(k, k-1) }` of
`symMerge`'s second special case. -/
def bubbleDownGo [Inhabited α] : Nat → List α → Nat → Nat → List α
  | 0, l, _, _ => l
  | fuel + 1, l, k, i =>
    if k > i then bubbleDownGo fuel (swapL l k (k - 1)) (k - 1) i else l

/-- Go `symMerge(data, a, m, b)`, translated clause by clause: the two
direct-insertion special cases with their binary searches, and the
symmetric-merge case with its comparison-driven search, `rotate`, and two
recursive calls (fuel bounds the recursion depth, which never exceeds
`b - a`). -/
def symMergeGo [Inhabited α] (less : α → α → Bool) : Nat → List α → Nat → Nat → Nat → List α
  | 0, l, _, _, _ => l
  | fuel + 1, l, a, m, b =>
    if m - a = 1 then
      let i := bsearchLoop (fun h => less (l.get! h) (l.get! a)) (b + 1) m b
      bubbleUpGo (i + 1) l a (i - 1)
    else if b - m = 1 then
      let i := bsearchLoop (fun h => !(less (l.get! m) (l.get! h))) (m + 1) a m
      bubbleDownGo (m + 1) l m i
    else
      let mid := (a + b) / 2
      let n := mid + m
      let start0 := if m > mid then n - b else a
      let r0 := if m > mid then mid else m
      let start := bsearchLoop (fun c => !(less (l.get! (n - 1 - c)) (l.get! c))) (r0 + 1) start0 r0
      let endd := n - start
      let l1 := if start < m ∧ m < endd then rotateGo l start m endd else l
      let l2 := if a < start ∧ start < mid then symMergeGo less fuel l1 a start mid else l1
      if mid < endd ∧ endd < b then symMergeGo less fuel l2 mid endd b else l2

/-- Go `insertionSort(data, a, b)`: insertion-sort the segment `[a, b)` in
place, modelled by the functional insertion sort of that segment. -/
def insertionSortSeg (less : α → α → Bool) (l : List α) (a b : Nat) : List α :=
  l.take a ++ sliceStable less ((l.drop a).take (b - a)) ++ l.drop b

/-- The first loop of Go `stable`: insertion-sort consecutive blocks of 20
(`for b <= n { insertionSort(data, a, b); a = b; b += 20 }`), returning
the list and the final `a`. -/
def stableBlocksLoop (less : α → α → Bool) : Nat → List α → Nat → Nat → Nat → List α × Nat
  | 0, l, a, _, _ => (l, a)
  | fuel + 1, l, a, b, n =>
    if b ≤ n then stableBlocksLoop less fuel (insertionSortSeg less l a b) b (b + 20) n
    else (l, a)

/-- The inner loop of Go `stable`'s merge phase
(`for b <= n { symMerge(data, a, a+blockSize, b); a = b; b += 2*blockSize }`),
returning the list and the final `a`. -/
def mergePairsLoop [Inhabited α] (less : α → α → Bool) : Nat → List α → Nat → Nat → Nat → Nat → List α × Nat
  | 0, l, a, _, _, _ => (l, a)
  | fuel + 1, l, a, b, bs, n =>
    if b ≤ n then
      mergePairsLoop less fuel (symMergeGo less (b + 1) l a (a + bs) b) b (b + 2 * bs) bs n
    else (l, a)

/-- The outer loop of Go `stable`'s merge phase (`for blockSize < n`):
merge adjacent block pairs, merge the trailing partial block if any,
double the block size. -/
def mergeAllLoop [Inhabited α] (less : α → α → Bool) : Nat → List α → Nat → Nat → List α
  | 0, l, _, _ => l
  | fuel + 1, l, bs, n =>
    if bs < n then
      let p := mergePairsLoop less (n + 1) l 0 (2 * bs) bs n
      let l2 :=
        if p.2 + bs < n then symMergeGo less (n + 1) p.1 p.2 (p.2 + bs) n else p.1
      mergeAllLoop less fuel l2 (2 * bs) n
    else l

/-- Model of Go `sort.SliceStable` (`stable(data, n)` with block size 20):
insertion-sort each block of 20, then repeatedly `symMerge` adjacent
blocks of doubling size. -/
def goSliceStable [Inhabited α] (less : α → α → Bool) (l : List α) : List α :=
  let n := l.length
  let p := stableBlocksLoop less (n + 1) l 0 20 n
  mergeAllLoop less (n + 1) (insertionSortSeg less p.1 p.2 n) 20 n

/-- The summary built for one record in `refresh`'s loop. -/
def toSummary (c : ContainerRecord) : ContainerSummary :=
  { ID := c.ID, Name := firstName c.Names, Image := c.Image,
    State := c.State, Status := c.Status, Ports := formatPorts c.Ports }

/-- The whole list pipeline of `refresh`: Go's stable sort, then one
summary per record in order. -/
def buildSummaries (records : List ContainerRecord) : List ContainerSummary :=
  (goSliceStable lessCtr records).map toSummary

/-- Oracles for the external collaborators of one user action: the Docker
daemon's answers (`ContainerList`, `ContainerInspect`, `ContainerLogs`
including the `io.ReadAll` of the log stream, keyed by container id), the
Go standard library RFC3339Nano parser and local RFC1123 formatter, the
current clock instant `now` (nanoseconds) and its `15:04:05 ` rendering
`clock` used by `setStatus`.  Errors are their `%v` strings. -/
structure Env where
  listResult : Except String (List ContainerRecord)
  inspectResult : String → Except String Inspect
  logsResult : String → Except String String
  parseRFC3339 : String → Option Int
  fmtRFC1123 : Int → String
  now : Int
  clock : String

/-- The mutable state of `App` that `main.go` writes: the stored summary
list, the rendered table (header row first), the three text panes, and the
table selection set by `table.Select`. -/
structure AppState where
  containers : List ContainerSummary
  table : List (List String)
  details : String
  logs : String
  status : String
  selected : Option Nat
deriving Repr, DecidableEq

/-- A remote call issued to the daemon during one handler run. -/
inductive RemoteCall where
  | inspectC (id : String)
  | logsC (id : String) (tail : Nat)
deriving Repr, DecidableEq

/-- Models Go `strings.ReplaceAll(s, "\r", "")`. -/
def removeCR (s : String) : String :=
  ⟨s.data.filter (fun c => c ≠ '\r')⟩

/-- The ASCII fragment of Go `unicode.IsSpace` (the characters Go
`strings.TrimSpace` trims, restricted to the code points the program
meets). -/
def isSpaceGo (c : Char) : Bool :=
  c = ' ' || c = '\t' || c = '\n' || c = '\x0b' || c = '\x0c' || c = '\r'

/-- Trim whitespace from both ends of a character list. -/
def trimChars (l : List Char) : List Char :=
  ((l.dropWhile isSpaceGo).reverse.dropWhile isSpaceGo).reverse

/-- Models Go `strings.TrimSpace`: drop whitespace from both ends. -/
def trimSpace (s : String) : String :=
  ⟨trimChars s.data⟩

/-- `fetchLogs` from `main.go` after the transport succeeded or failed:
on success the raw bytes have carriage returns removed and are trimmed. -/
def fetchLogs (env : Env) (id : String) : Except String String :=
  match env.logsResult id with
  | .error e => .error e
  | .ok b => .ok (trimSpace (removeCR b))

/-- The detail block composed in `showForRow`'s success branch: five
labelled lines, plus a `Started` line only when the parsed start time is
not the zero time. -/
def detailText (env : Env) (c : ContainerSummary) (ins : Inspect) : String :=
  let started := parseTime env.parseRFC3339 ins.State.StartedAt
  "[::b]Name:[-] " ++ c.Name ++ "\n" ++
  "[::b]ID:[-] " ++ c.ID ++ "\n" ++
  "[::b]Image:[-] " ++ c.Image ++ "\n" ++
  "[::b]State:[-] " ++ ins.State.Status ++ "\n" ++
  "[::b]Status:[-] " ++ c.Status ++ "\n" ++
  (if started ≠ 0 then
    "[::b]Started:[-] " ++ env.fmtRFC1123 started ++ " (" ++
      since env.now started ++ " ago)\n"
   else "")

/-- `showForRow` from `main.go`: bounds-check `row - 1` against the stored
summary list; in range, inspect the container (writing either an inline
error or the detail block) and then fetch its logs (writing either an
inline error, `"(no logs)"` for blank output, or the processed text).
Also returns the remote calls issued. -/
def showForRow (env : Env) (st : AppState) (row : Int) : AppState × List RemoteCall :=
  let idx := row - 1
  if idx < 0 ∨ (st.containers.length : Int) ≤ idx then (st, [])
  else
    let c := st.containers[idx.toNat]!
    let detNew :=
      match env.inspectResult c.ID with
      | .error e => "[red]Inspect error: " ++ e
      | .ok ins => detailText env c ins
    let logNew :=
      match fetchLogs env c.ID with
      | .error e => "[red]Logs error: " ++ e
      | .ok logs => if trimSpace logs = "" then "(no logs)" else logs
    ({ st with details := detNew, logs := logNew },
     [RemoteCall.inspectC c.ID, RemoteCall.logsC c.ID 5])

/-- The header cells `refresh` (and `setupUI`) write into row 0. -/
def headerCells : List String :=
  ["[::b]Name", "[::b]Image", "[::b]State", "[::b]Status", "[::b]Ports"]

/-- The data row `refresh` writes for one summary. -/
def rowCells (s : ContainerSummary) : List String :=
  [s.Name, s.Image, s.State, s.Status, s.Ports]

/-- `refresh` from `main.go`: on a list error, return it untouched;
otherwise rebuild the summary list and table, set the green status line,
then either select row 1 and show it, or report an empty list.  The middle
component is the Go `error` return value; the last lists the remote calls
issued by the triggered `showForRow`. -/
def refresh (env : Env) (st : AppState) : AppState × Option String × List RemoteCall :=
  match env.listResult with
  | .error e => (st, some e, [])
  | .ok records =>
    let summaries := buildSummaries records
    let st1 : AppState :=
      { st with
        containers := summaries,
        table := headerCells :: summaries.map rowCells,
        status := env.clock ++ "[green]Refreshed. " ++
          toString summaries.length ++ " containers." }
    if summaries.length > 0 then
      let st2 : AppState := { st1 with selected := some 1 }
      ((showForRow env st2 1).1, none, (showForRow env st2 1).2)
    else
      ({ st1 with details := "No containers found.", logs := "" }, none, [])

/-- The `r`/`R` key handler registered in `setupUI`: run `refresh` and, on
error, surface it on the status line only. -/
def refreshKey (env : Env) (st : AppState) : AppState × List RemoteCall :=
  match refresh env st with
  | (st1, some e, calls) =>
      ({ st1 with status := env.clock ++ "[red]Refresh error: " ++ e }, calls)
  | (st1, none, calls) => (st1, calls)

/-- A concrete environment in which every daemon call fails (used to
instantiate universally quantified theorems at a checkable input). -/
def envNull : Env :=
  { listResult := .error "boom",
    inspectResult := fun _ => .error "inspect down",
    logsResult := fun _ => .error "logs down",
    parseRFC3339 := fun _ => none,
    fmtRFC1123 := fun _ => "",
    now := 0,
    clock := "12:00:00 " }

/-- A concrete environment with one running container whose inspection
succeeds with an unparseable start timestamp and whose logs are blank. -/
def envOk : Env :=
  { listResult := .ok [⟨"c1", ["/web"], "nginx", "running", "Up 5 minutes", []⟩],
    inspectResult := fun _ => .ok ⟨⟨"running", "garbage-timestamp"⟩⟩,
    logsResult := fun _ => .ok "  \r\n ",
    parseRFC3339 := fun _ => none,
    fmtRFC1123 := fun _ => "",
    now := 0,
    clock := "12:00:00 " }

/-- A concrete environment whose inspection yields a start timestamp that
parses to an instant 5 seconds in the future of `now`. -/
def envFuture : Env :=
  { listResult := .ok [⟨"c1", ["/web"], "nginx", "running", "Up", []⟩],
    inspectResult := fun _ => .ok ⟨⟨"running", "2026-01-01T00:00:05Z"⟩⟩,
    logsResult := fun _ => .ok "line1\r\n",
    parseRFC3339 := fun s => if s = "2026-01-01T00:00:05Z" then some 5000000000 else none,
    fmtRFC1123 := fun _ => "Thu, 01 Jan 2026 00:00:05 UTC",
    now := 0,
    clock := "12:00:00 " }

/-- A concrete environment where inspection fails but the log fetch
succeeds. -/
def envInsFail : Env :=
  { listResult := .ok [⟨"c1", ["/web"], "nginx", "running", "Up", []⟩],
    inspectResult := fun _ => .error "no such container",
    logsResult := fun _ => .ok "hello\rworld\n",
    parseRFC3339 := fun _ => none,
    fmtRFC1123 := fun _ => "",
    now := 0,
    clock := "12:00:00 " }

/-- A concrete environment whose list call succeeds with no containers. -/
def envEmpty : Env :=
  { listResult := .ok [],
    inspectResult := fun _ => .error "inspect down",
    logsResult := fun _ => .error "logs down",
    parseRFC3339 := fun _ => none,
    fmtRFC1123 := fun _ => "",
    now := 0,
    clock := "12:00:00 " }

/-- The empty prior application state. -/
def stNull : AppState := ⟨[], [], "", "", "", none⟩

/-- The intermediate state `refresh` reaches on a successful non-empty
list: summaries stored, table rebuilt, green status set, row 1 selected —
the state from which it triggers `showForRow 1`. -/
def refreshedSelectedState (env : Env) (st : AppState) (records : List ContainerRecord) : AppState :=
  { st with
    containers := buildSummaries records,
    table := headerCells :: (buildSummaries records).map rowCells,
    status := env.clock ++ "[green]Refreshed. " ++
      toString (buildSummaries records).length ++ " containers.",
    selected := some 1 }

/-- A prior state holding one summary (so that row 1 is in range). -/
def stOne : AppState :=
  ⟨[⟨"c1", "web", "nginx", "running", "Up", "-"⟩], [], "", "", "", none⟩

/-- A record with one name and no ports, for compact sorting fixtures. -/
def rec21 (id name state : String) : ContainerRecord :=
  ⟨id, [name], "img", state, "", []⟩

/-- A 21-record input (one full insertion-sort block plus one element) on
which `sort.SliceStable`'s merge phase reorders two records with equal
state and equal primary name: the block `a0..a9, d(exited), z, c(exited
id X), z1..z7` is already chain-ordered, and merging the trailing
`c(exited id Y)` binary-searches to index 10 — in front of the exited `d`,
and therefore in front of the equal-keyed exited `c` with id `X`. -/
def ex21 : List ContainerRecord :=
  [rec21 "i0" "/a0" "paused", rec21 "i1" "/a1" "paused", rec21 "i2" "/a2" "paused",
   rec21 "i3" "/a3" "paused", rec21 "i4" "/a4" "paused", rec21 "i5" "/a5" "paused",
   rec21 "i6" "/a6" "paused", rec21 "i7" "/a7" "paused", rec21 "i8" "/a8" "paused",
   rec21 "i9" "/a9" "paused",
   rec21 "i10" "/d" "exited",
   rec21 "i11" "/z" "paused",
   rec21 "X" "/c" "exited",
   rec21 "i13" "/z1" "paused", rec21 "i14" "/z2" "paused", rec21 "i15" "/z3" "paused",
   rec21 "i16" "/z4" "paused", rec21 "i17" "/z5" "paused", rec21 "i18" "/z6" "paused",
   rec21 "i19" "/z7" "paused",
   rec21 "Y" "/c" "exited"]

section SortLemmas

variable {α : Type _}

theorem ltChars_asymm : ∀ as bs : List Char, ltChars as bs = true → ltChars bs as = false := by
  intro as
  induction as with
  | nil => intro bs h; cases bs <;> simp [ltChars] at h ⊢
  | cons a as ih =>
    intro bs h
    cases bs with
    | nil => simp [ltChars] at h
    | cons b bs =>
      unfold ltChars at h ⊢
      by_cases hab : a < b
      · simp [hab, asymm hab, lt_irrefl] at *
      · by_cases hba : b < a
        · simp [hab, hba] at h
        · simp [hab, hba] at h ⊢
          exact ih bs h

theorem ltChars_irrefl : ∀ as : List Char, ltChars as as = false := by
  intro as
  induction as with
  | nil => rfl
  | cons a as ih => simp [ltChars, lt_irrefl, ih]

theorem strLt_asymm {s t : String} (h : strLt s t = true) : strLt t s = false :=
  ltChars_asymm s.data t.data h

theorem strLt_irrefl (s : String) : strLt s s = false :=
  ltChars_irrefl s.data

theorem ltChars_antisymm : ∀ as bs : List Char,
    ltChars as bs = false → ltChars bs as = false → as = bs := by
  intro as
  induction as with
  | nil => intro bs h₁ h₂; cases bs <;> simp [ltChars] at h₁ ⊢
  | cons a as ih =>
    intro bs h₁ h₂
    cases bs with
    | nil => simp [ltChars] at h₂
    | cons b bs =>
      unfold ltChars at h₁ h₂
      by_cases hab : a < b
      · simp [hab] at h₁
      · by_cases hba : b < a
        · simp [hab, hba] at h₂
        · simp [hab, hba] at h₁ h₂
          have hchars : a = b := le_antisymm (not_lt.mp hba) (not_lt.mp hab)
          rw [hchars, ih bs h₁ h₂]

theorem strLt_antisymm {s t : String} (h₁ : strLt s t = false) (h₂ : strLt t s = false) :
    s = t := by
  cases s; cases t
  exact congrArg String.mk (ltChars_antisymm _ _ h₁ h₂)

theorem lessCtr_asymm (a b : ContainerRecord) (h : lessCtr a b = true) :
    lessCtr b a = false := by
  by_cases hs : a.State = b.State
  · simp [lessCtr, hs] at h ⊢
    exact strLt_asymm h
  · simp [lessCtr, hs, Ne.symm hs] at h ⊢
    intro hb
    exact hs (h.trans hb.symm)

theorem sliceStableInsert_split (less : α → α → Bool) (l : List α) (x : α) :
    (l.reverse.dropWhile (fun y => less x y)).reverse ++
      (l.reverse.takeWhile (fun y => less x y)).reverse = l := by
  rw [← List.reverse_append, List.takeWhile_append_dropWhile, List.reverse_reverse]

theorem head?_dropWhile_false (p : α → Bool) :
    ∀ (l : List α) (y : α), (l.dropWhile p).head? = some y → p y = false := by
  intro l
  induction l with
  | nil => intro y h; simp [List.dropWhile] at h
  | cons a l ih =>
    intro y h
    rw [List.dropWhile_cons] at h
    by_cases hp : p a
    · rw [if_pos hp] at h
      exact ih y h
    · rw [if_neg hp] at h
      simp at h
      subst h
      exact Bool.eq_false_iff.mpr hp

theorem length_sliceStableInsert (less : α → α → Bool) (l : List α) (x : α) :
    (sliceStableInsert less l x).length = l.length + 1 := by
  have h := congrArg List.length (sliceStableInsert_split less l x)
  rw [List.length_append] at h
  rw [sliceStableInsert, List.length_append]
  simp only [List.length_cons]
  omega

theorem chain'_sliceStableInsert (less : α → α → Bool)
    (hasym : ∀ a b, less a b = true → less b a = false)
    (l : List α) (x : α)
    (h : l.Chain' (fun u v => less v u = false)) :
    (sliceStableInsert less l x).Chain' (fun u v => less v u = false) := by
  rw [← sliceStableInsert_split less l x] at h
  rw [sliceStableInsert]
  rw [List.chain'_append] at h ⊢
  obtain ⟨h₁, h₂, hbd⟩ := h
  refine ⟨h₁, ?_, ?_⟩
  · rw [List.chain'_cons']
    refine ⟨?_, h₂⟩
    intro y hy
    have hy' : (l.reverse.takeWhile (fun y => less x y)).reverse.head? = some y :=
      Option.mem_def.mp hy
    rw [List.head?_reverse] at hy'
    have hmem : y ∈ l.reverse.takeWhile (fun y => less x y) :=
      List.mem_of_getLast?_eq_some hy'
    have hxy : less x y = true := List.mem_takeWhile_imp hmem
    exact hasym x y hxy
  · intro a ha b hb
    have hb' : x = b := by simpa using hb
    subst hb'
    have ha' : (l.reverse.dropWhile (fun y => less x y)).reverse.getLast? = some a :=
      Option.mem_def.mp ha
    rw [List.getLast?_reverse] at ha'
    exact head?_dropWhile_false _ _ a ha'

theorem filter_sliceStableInsert (less : α → α → Bool) (q : α → Bool)
    (hq : ∀ a b, q a = true → q b = true → less a b = false)
    (l : List α) (x : α) :
    (sliceStableInsert less l x).filter q =
      if q x then l.filter q ++ [x] else l.filter q := by
  conv_rhs => rw [← sliceStableInsert_split less l x]
  rw [sliceStableInsert, List.filter_append, List.filter_append, List.filter_cons]
  by_cases hx : q x
  · have hnil : ((l.reverse.takeWhile (fun y => less x y)).reverse).filter q = [] := by
      rw [List.filter_eq_nil_iff]
      intro y hy
      have hmem : y ∈ l.reverse.takeWhile (fun y => less x y) := by
        rw [List.mem_reverse] at hy; exact hy
      have hxy : less x y = true := List.mem_takeWhile_imp hmem
      intro hqy
      have := hq x y hx hqy
      rw [this] at hxy
      exact Bool.false_ne_true hxy
    simp [hx, hnil]
  · simp [hx]

theorem length_foldl_sliceStableInsert (less : α → α → Bool) :
    ∀ (l acc : List α), (l.foldl (sliceStableInsert less) acc).length = acc.length + l.length := by
  intro l
  induction l with
  | nil => intro acc; simp
  | cons x xs ih =>
    intro acc
    rw [List.foldl_cons, ih, length_sliceStableInsert]
    simp only [List.length_cons]
    omega

theorem chain'_foldl_sliceStableInsert (less : α → α → Bool)
    (hasym : ∀ a b, less a b = true → less b a = false) :
    ∀ (l acc : List α), acc.Chain' (fun u v => less v u = false) →
      (l.foldl (sliceStableInsert less) acc).Chain' (fun u v => less v u = false) := by
  intro l
  induction l with
  | nil => intro acc h; exact h
  | cons x xs ih =>
    intro acc h
    rw [List.foldl_cons]
    exact ih _ (chain'_sliceStableInsert less hasym acc x h)

theorem filter_foldl_sliceStableInsert (less : α → α → Bool) (q : α → Bool)
    (hq : ∀ a b, q a = true → q b = true → less a b = false) :
    ∀ (l acc : List α),
      (l.foldl (sliceStableInsert less) acc).filter q = acc.filter q ++ l.filter q := by
  intro l
  induction l with
  | nil => intro acc; simp
  | cons x xs ih =>
    intro acc
    rw [List.foldl_cons, ih, filter_sliceStableInsert less q hq, List.filter_cons]
    by_cases hx : q x
    · simp [hx]
    · simp [hx]

theorem length_sliceStable (less : α → α → Bool) (l : List α) :
    (sliceStable less l).length = l.length := by
  rw [sliceStable, length_foldl_sliceStableInsert]
  simp

theorem chain'_sliceStable (less : α → α → Bool)
    (hasym : ∀ a b, less a b = true → less b a = false) (l : List α) :
    (sliceStable less l).Chain' (fun u v => less v u = false) :=
  chain'_foldl_sliceStableInsert less hasym l [] (by simp)

theorem filter_sliceStable (less : α → α → Bool) (q : α → Bool)
    (hq : ∀ a b, q a = true → q b = true → less a b = false) (l : List α) :
    (sliceStable less l).filter q = l.filter q := by
  rw [sliceStable, filter_foldl_sliceStableInsert less q hq]
  simp

end SortLemmas

theorem length_insertionSortSeg {α : Type _} (less : α → α → Bool) (l : List α) (a b : Nat)
    (hab : a ≤ b) (hb : b ≤ l.length) :
    (insertionSortSeg less l a b).length = l.length := by
  rw [insertionSortSeg]
  simp only [List.length_append, List.length_take, List.length_drop, length_sliceStable]
  omega

theorem insertionSortSeg_whole {α : Type _} (less : α → α → Bool) (l : List α) :
    insertionSortSeg less l 0 l.length = sliceStable less l := by
  rw [insertionSortSeg]
  simp

theorem insertionSortSeg_empty_tail {α : Type _} (less : α → α → Bool) (l : List α)
    (h : l.length = 20) : insertionSortSeg less l 20 20 = l := by
  rw [insertionSortSeg]
  rw [List.take_of_length_le (by omega), List.drop_eq_nil_of_le (by omega)]
  simp [sliceStable]

section GoStableLemmas

variable {α : Type _} [Inhabited α]

theorem length_swapL (l : List α) (i j : Nat) : (swapL l i j).length = l.length := by
  simp [swapL]

theorem length_swapRangeGo :
    ∀ (n : Nat) (l : List α) (a b : Nat), (swapRangeGo n l a b).length = l.length := by
  intro n
  induction n with
  | zero => intro l a b; rfl
  | succ n ih => intro l a b; rw [swapRangeGo, ih, length_swapL]

theorem length_rotateLoop :
    ∀ (fuel : Nat) (l : List α) (m i j : Nat), (rotateLoop fuel l m i j).length = l.length := by
  intro fuel
  induction fuel with
  | zero => intro l m i j; rfl
  | succ fuel ih =>
    intro l m i j
    rw [rotateLoop]
    split
    · rw [length_swapRangeGo]
    · split
      · rw [ih, length_swapRangeGo]
      · rw [ih, length_swapRangeGo]

theorem length_rotateGo (l : List α) (a m b : Nat) : (rotateGo l a m b).length = l.length :=
  length_rotateLoop _ l m _ _

theorem length_bubbleUpGo :
    ∀ (fuel : Nat) (l : List α) (k t : Nat), (bubbleUpGo fuel l k t).length = l.length := by
  intro fuel
  induction fuel with
  | zero => intro l k t; rfl
  | succ fuel ih =>
    intro l k t
    rw [bubbleUpGo]
    split
    · rw [ih, length_swapL]
    · rfl

theorem length_bubbleDownGo :
    ∀ (fuel : Nat) (l : List α) (k i : Nat), (bubbleDownGo fuel l k i).length = l.length := by
  intro fuel
  induction fuel with
  | zero => intro l k i; rfl
  | succ fuel ih =>
    intro l k i
    rw [bubbleDownGo]
    split
    · rw [ih, length_swapL]
    · rfl

theorem length_symMergeGo (less : α → α → Bool) :
    ∀ (fuel : Nat) (l : List α) (a m b : Nat),
      (symMergeGo less fuel l a m b).length = l.length := by
  intro fuel
  induction fuel with
  | zero => intro l a m b; rfl
  | succ fuel ih =>
    intro l a m b
    simp only [symMergeGo]
    split_ifs <;>
      simp [ih, length_rotateGo, length_bubbleUpGo, length_bubbleDownGo]

omit [Inhabited α] in
theorem stableBlocksLoop_spec (less : α → α → Bool) :
    ∀ (fuel : Nat) (l : List α) (a b n : Nat), l.length = n → a ≤ n → a ≤ b →
      (stableBlocksLoop less fuel l a b n).1.length = n
      ∧ (stableBlocksLoop less fuel l a b n).2 ≤ n := by
  intro fuel
  induction fuel with
  | zero => intro l a b n hl ha _; exact ⟨hl, ha⟩
  | succ fuel ih =>
    intro l a b n hl ha hab
    rw [stableBlocksLoop]
    split
    · rename_i hbn
      have hseg : (insertionSortSeg less l a b).length = n := by
        rw [length_insertionSortSeg less l a b hab (by omega)]
        exact hl
      exact ih _ b (b + 20) n hseg hbn (by omega)
    · exact ⟨hl, ha⟩

theorem length_mergePairsLoop (less : α → α → Bool) :
    ∀ (fuel : Nat) (l : List α) (a b bs n : Nat),
      (mergePairsLoop less fuel l a b bs n).1.length = l.length := by
  intro fuel
  induction fuel with
  | zero => intro l a b bs n; rfl
  | succ fuel ih =>
    intro l a b bs n
    rw [mergePairsLoop]
    split
    · rw [ih, length_symMergeGo]
    · rfl

theorem length_mergeAllLoop (less : α → α → Bool) :
    ∀ (fuel : Nat) (l : List α) (bs n : Nat),
      (mergeAllLoop less fuel l bs n).length = l.length := by
  intro fuel
  induction fuel with
  | zero => intro l bs n; rfl
  | succ fuel ih =>
    intro l bs n
    rw [mergeAllLoop]
    split
    · simp only
      split
      · rw [ih, length_symMergeGo, length_mergePairsLoop]
      · rw [ih, length_mergePairsLoop]
    · rfl

theorem length_goSliceStable (less : α → α → Bool) (l : List α) :
    (goSliceStable less l).length = l.length := by
  simp only [goSliceStable]
  have hspec := stableBlocksLoop_spec less (l.length + 1) l 0 20 l.length rfl
    (Nat.zero_le _) (Nat.zero_le _)
  rw [length_mergeAllLoop, length_insertionSortSeg less _ _ _ hspec.2 (by rw [hspec.1])]
  exact hspec.1

/-- For at most 20 elements, Go's `stable` runs a single insertion-sort
block and its merge phase is vacuous, so `sort.SliceStable` coincides with
the functional insertion sort. -/
theorem goSliceStable_eq_sliceStable (less : α → α → Bool) (l : List α)
    (h : l.length ≤ 20) : goSliceStable less l = sliceStable less l := by
  simp only [goSliceStable]
  by_cases h20 : l.length = 20
  · rw [h20]
    rw [stableBlocksLoop]
    rw [if_pos (by omega)]
    have h19 : (19 : Nat) + 1 = 20 := rfl
    rw [show (20 : Nat) + 1 = 19 + 1 + 1 from rfl] at *
    rw [stableBlocksLoop]
    rw [if_neg (by omega)]
    have hseg : insertionSortSeg less l 0 20 = sliceStable less l := by
      rw [← h20, insertionSortSeg_whole]
    rw [hseg]
    rw [insertionSortSeg_empty_tail less _ (by rw [length_sliceStable, h20])]
    rw [mergeAllLoop]
    rw [if_neg (by omega)]
  · have hlt : l.length < 20 := by omega
    rw [stableBlocksLoop]
    rw [if_neg (by omega)]
    rw [insertionSortSeg_whole]
    rw [mergeAllLoop]
    rw [if_neg (by omega)]

end GoStableLemmas

theorem lessCtr_running (a b : ContainerRecord) (h : lessCtr b a = false)
    (hb : b.State = "running") : a.State = "running" := by
  by_contra ha
  have hne : b.State ≠ a.State := by
    rw [hb]
    exact fun e => ha e.symm
  rw [lessCtr, if_pos hne, decide_eq_false_iff_not] at h
  exact h hb

theorem lessCtr_same_key (s n : String) (a b : ContainerRecord)
    (hqa : decide (a.State = s ∧ firstName a.Names = n) = true)
    (hqb : decide (b.State = s ∧ firstName b.Names = n) = true) :
    lessCtr a b = false := by
  rw [decide_eq_true_iff] at hqa hqb
  have hstate : a.State = b.State := hqa.1.trans hqb.1.symm
  have hname : firstName a.Names = firstName b.Names := hqa.2.trans hqb.2.symm
  simp [lessCtr, hstate, hname, strLt_irrefl]

/-- C1 (amended): for every input record list, the summary list built
during refresh preserves the count of records.  For inputs of at most 20
records — where `sort.SliceStable` runs a single insertion-sort block —
every running-state record precedes every non-running record, records
with equal state and equal primary name keep their relative input order
(stated as: filtering the output at any state/name key yields exactly the
same-key input records, in input order), and adjacent records with equal
state are in ascending primary-name order.  Neither ordering property is
unrestricted: the comparator is not a strict weak order, so equal-state
records need not be globally name-ordered even among 3 records, and
beyond 20 records the merge phase can even reorder records with equal
state and equal primary name — see the counterexample. -/
theorem C1_refresh_sort (records : List ContainerRecord) :
    (buildSummaries records).length = records.length
    ∧ (records.length ≤ 20 →
      List.Pairwise
          (fun a b : ContainerSummary => b.State = "running" → a.State = "running")
          (buildSummaries records)
      ∧ (∀ s n : String,
          (buildSummaries records).filter (fun c => decide (c.State = s ∧ c.Name = n)) =
            (records.filter (fun r => decide (r.State = s ∧ firstName r.Names = n))).map toSummary)
      ∧ List.Chain'
          (fun a b : ContainerSummary =>
            a.State = b.State → strLt a.Name b.Name = true ∨ a.Name = b.Name)
          (buildSummaries records)) := by
  have hchain := chain'_sliceStable lessCtr lessCtr_asymm records
  constructor
  · rw [buildSummaries, List.length_map, length_goSliceStable]
  intro h20
  have hbs : buildSummaries records = (sliceStable lessCtr records).map toSummary := by
    rw [buildSummaries, goSliceStable_eq_sliceStable lessCtr records h20]
  refine ⟨?_, ?_, ?_⟩
  · rw [hbs, List.pairwise_map]
    show List.Pairwise
      (fun a b : ContainerRecord => b.State = "running" → a.State = "running")
      (sliceStable lessCtr records)
    have hrun : (sliceStable lessCtr records).Chain'
        (fun a b => b.State = "running" → a.State = "running") :=
      hchain.imp (fun a b h hb => lessCtr_running a b h hb)
    haveI : IsTrans ContainerRecord
        (fun a b => b.State = "running" → a.State = "running") :=
      ⟨fun _ _ _ hab hbc h => hab (hbc h)⟩
    exact List.chain'_iff_pairwise.mp hrun
  · intro s n
    rw [hbs, List.filter_map]
    have hpred : ((fun c : ContainerSummary => decide (c.State = s ∧ c.Name = n)) ∘ toSummary) =
        fun r : ContainerRecord => decide (r.State = s ∧ firstName r.Names = n) := rfl
    rw [hpred, filter_sliceStable lessCtr _ (lessCtr_same_key s n)]
  · rw [hbs, List.chain'_map]
    refine hchain.imp ?_
    intro a b h hstate
    have hstate' : ¬ b.State ≠ a.State := fun hne => hne hstate.symm
    rw [lessCtr, if_neg hstate'] at h
    by_cases hlt : strLt (firstName a.Names) (firstName b.Names) = true
    · exact Or.inl hlt
    · exact Or.inr (strLt_antisymm (Bool.eq_false_iff.mpr hlt) h)

/-- C1 counterexample, two parts.  First, on the 3-record input
[exited "b", paused "m", exited "a"] the built summary list keeps that
order, so the two equal-state ("exited") records are NOT in ascending
primary-name order.  Second, on the 21-record input `ex21` the merge
phase of `sort.SliceStable` moves the later equal-keyed record (exited
"c", id "Y") in front of the earlier one (id "X"), so the sort is NOT
stable at equal state and equal primary name: filtering the output at the
key (exited, "c") yields ids ["Y", "X"] against input order ["X", "Y"]. -/
theorem C1_counterexample :
    (buildSummaries
        [⟨"1", ["/b"], "img", "exited", "", []⟩,
         ⟨"2", ["/m"], "img", "paused", "", []⟩,
         ⟨"3", ["/a"], "img", "exited", "", []⟩]).map
        (fun c => (c.State, c.Name)) =
      [("exited", "b"), ("paused", "m"), ("exited", "a")]
    ∧ ¬ List.Pairwise
        (fun a b : ContainerSummary =>
          a.State = b.State → strLt a.Name b.Name = true ∨ a.Name = b.Name)
        (buildSummaries
          [⟨"1", ["/b"], "img", "exited", "", []⟩,
           ⟨"2", ["/m"], "img", "paused", "", []⟩,
           ⟨"3", ["/a"], "img", "exited", "", []⟩])
    ∧ ex21.length = 21
    ∧ ((buildSummaries ex21).filter
        (fun c => decide (c.State = "exited" ∧ c.Name = "c"))).map (fun c => c.ID) = ["Y", "X"]
    ∧ (ex21.filter
        (fun r => decide (r.State = "exited" ∧ firstName r.Names = "c"))).map (fun r => r.ID) = ["X", "Y"]
    ∧ ¬ ((buildSummaries ex21).filter (fun c => decide (c.State = "exited" ∧ c.Name = "c")) =
          (ex21.filter (fun r => decide (r.State = "exited" ∧ firstName r.Names = "c"))).map toSummary) := by
  refine ⟨by decide, by decide, by decide, by decide, by decide, by decide⟩

theorem C1_witness :
    ([⟨"2", ["/b"], "img", "running", "Up", []⟩,
      ⟨"1", ["/a"], "img", "exited", "Exit", []⟩] : List ContainerRecord).length ≤ 20
    ∧ List.Pairwise
        (fun a b : ContainerSummary => b.State = "running" → a.State = "running")
        (buildSummaries
          [⟨"2", ["/b"], "img", "running", "Up", []⟩,
           ⟨"1", ["/a"], "img", "exited", "Exit", []⟩]) :=
  ⟨by decide,
   ((C1_refresh_sort
      [⟨"2", ["/b"], "img", "running", "Up", []⟩,
       ⟨"1", ["/a"], "img", "exited", "Exit", []⟩]).2 (by decide)).1⟩

/-- C3: if the list call fails, `refresh` returns the error and leaves the
whole state — summary list, table, panes, selection, status — exactly as
it was, issuing no remote call; the `r` key handler then surfaces the
failure only on the status line. -/
theorem C3_list_error_keeps_state (env : Env) (st : AppState) (e : String)
    (h : env.listResult = .error e) :
    refresh env st = (st, some e, [])
    ∧ refreshKey env st =
        ({ st with status := env.clock ++ "[red]Refresh error: " ++ e }, []) := by
  have h1 : refresh env st = (st, some e, []) := by rw [refresh, h]
  exact ⟨h1, by simp [refreshKey, h1]⟩

theorem C3_witness :
    envNull.listResult = .error "boom"
    ∧ refresh envNull stNull = (stNull, some "boom", [])
    ∧ refreshKey envNull stNull =
        ({ stNull with status := "12:00:00 " ++ "[red]Refresh error: " ++ "boom" }, []) := by
  have h := C3_list_error_keeps_state envNull stNull "boom" rfl
  exact ⟨rfl, h.1, h.2⟩

theorem foldl_append_singleton_eq_map (f : α → β) :
    ∀ (l : List α) (acc : List β),
      l.foldl (fun out p => out ++ [f p]) acc = acc ++ l.map f := by
  intro l
  induction l with
  | nil => intro acc; simp
  | cons x xs ih => intro acc; simp [ih]

/-- C6: port formatting — the empty list yields exactly `-`; otherwise the
output is the per-binding entries joined with `", "` in input order, where
a binding with public port > 0 renders as `ip-or-0.0.0.0:public->private/type`
(type lowercased) and a binding with public port 0 renders as
`private/type`; in particular the two concrete examples of the claim. -/
theorem C6_formatPorts (ports : List Port) (h : ports ≠ []) :
    formatPorts [] = "-"
    ∧ formatPorts ports = String.intercalate ", " (ports.map portEntry)
    ∧ (∀ p : Port, portEntry p =
        if p.PublicPort > 0 then
          nz p.IP "0.0.0.0" ++ ":" ++ toString p.PublicPort ++ "->" ++
            toString p.PrivatePort ++ "/" ++ toLowerGo p.Type'
        else toString p.PrivatePort ++ "/" ++ toLowerGo p.Type')
    ∧ formatPorts [⟨"", 80, 8080, "tcp"⟩] = "0.0.0.0:8080->80/tcp"
    ∧ formatPorts [⟨"", 443, 0, "TCP"⟩] = "443/tcp" := by
  refine ⟨by decide, ?_, fun p => rfl, by decide, by decide⟩
  have hne : ports.isEmpty = false := by
    cases ports with
    | nil => exact absurd rfl h
    | cons a l => rfl
  simp [formatPorts, hne, foldl_append_singleton_eq_map]

theorem C6_witness :
    ([⟨"", 80, 8080, "tcp"⟩] : List Port) ≠ []
    ∧ formatPorts [⟨"", 80, 8080, "tcp"⟩] =
        String.intercalate ", " (([⟨"", 80, 8080, "tcp"⟩] : List Port).map portEntry) :=
  ⟨by decide, (C6_formatPorts [⟨"", 80, 8080, "tcp"⟩] (by decide)).2.1⟩

/-- C7: relative-time bucketing uses strict-less-than boundaries and
truncation toward zero: durations under one minute render as seconds,
under one hour as minutes, under one day as hours, otherwise as days; with
the claim's concrete examples, including exactly 60 seconds falling into
the minutes bucket. -/
theorem C7_since_buckets (now t : Int) :
    (now - t < 60000000000 →
      since now t = toString (Int.tdiv (now - t) 1000000000) ++ " seconds")
    ∧ (60000000000 ≤ now - t → now - t < 3600000000000 →
      since now t = toString (Int.tdiv (now - t) 60000000000) ++ " minutes")
    ∧ (3600000000000 ≤ now - t → now - t < 86400000000000 →
      since now t = toString (Int.tdiv (now - t) 3600000000000) ++ " hours")
    ∧ (86400000000000 ≤ now - t →
      since now t = toString (Int.tdiv (now - t) 86400000000000) ++ " days")
    ∧ since 45000000000 0 = "45 seconds"
    ∧ since 90000000000 0 = "1 minutes"
    ∧ since 7200000000000 0 = "2 hours"
    ∧ since 172800000000000 0 = "2 days"
    ∧ since 60000000000 0 = "1 minutes" := by
  refine ⟨?_, ?_, ?_, ?_, by decide, by decide, by decide, by decide, by decide⟩
  · intro h1
    simp only [since]
    rw [if_pos h1]
  · intro h1 h2
    have hn : ¬ now - t < 60000000000 := by omega
    simp only [since]
    rw [if_neg hn, if_pos h2]
  · intro h1 h2
    have hn1 : ¬ now - t < 60000000000 := by omega
    have hn2 : ¬ now - t < 3600000000000 := by omega
    simp only [since]
    rw [if_neg hn1, if_neg hn2, if_pos h2]
  · intro h1
    have hn1 : ¬ now - t < 60000000000 := by omega
    have hn2 : ¬ now - t < 3600000000000 := by omega
    have hn3 : ¬ now - t < 86400000000000 := by omega
    simp only [since]
    rw [if_neg hn1, if_neg hn2, if_neg hn3]

theorem C7_witness :
    (45000000000 : Int) - 0 < 60000000000
    ∧ since 45000000000 0 = toString (Int.tdiv ((45000000000 : Int) - 0) 1000000000) ++ " seconds" :=
  ⟨by decide, (C7_since_buckets 45000000000 0).1 (by decide)⟩

/-- C8: for any out-of-range row (including the header row 0), the
selection handler returns with the state untouched and issues no remote
call; the summary list is dereferenced only when `0 ≤ row - 1 < length`. -/
theorem C8_out_of_range (env : Env) (st : AppState) (row : Int)
    (h : row - 1 < 0 ∨ (st.containers.length : Int) ≤ row - 1) :
    showForRow env st row = (st, []) := by
  simp only [showForRow]
  rw [if_pos h]

theorem C8_witness :
    ((0 : Int) - 1 < 0 ∨ (stNull.containers.length : Int) ≤ (0 : Int) - 1)
    ∧ showForRow envNull stNull 0 = (stNull, []) :=
  ⟨Or.inl (by decide), C8_out_of_range envNull stNull 0 (Or.inl (by decide))⟩

theorem dropWhile_idem (p : α → Bool) (l : List α) :
    (l.dropWhile p).dropWhile p = l.dropWhile p := by
  induction l with
  | nil => rfl
  | cons a l ih =>
    rw [List.dropWhile_cons]
    by_cases hp : p a
    · rw [if_pos hp]; exact ih
    · rw [if_neg hp, List.dropWhile_cons, if_neg hp]

theorem dropWhile_cons_self_head_false (p : α → Bool) (a : α) (l : List α)
    (h : (a :: l).dropWhile p = a :: l) : p a = false := by
  by_contra hpa
  have hpa' : p a = true := Bool.of_not_eq_false hpa
  rw [List.dropWhile_cons, if_pos hpa'] at h
  have := congrArg List.length h
  have hle : (l.dropWhile p).length ≤ l.length := (List.dropWhile_sublist p).length_le
  rw [List.length_cons] at this
  omega

theorem dropWhile_trimRight (p : α → Bool) (m : List α) (hm : m.dropWhile p = m) :
    ((m.reverse.dropWhile p).reverse).dropWhile p = (m.reverse.dropWhile p).reverse := by
  cases m with
  | nil => rfl
  | cons a m' =>
    have hpa : p a = false := dropWhile_cons_self_head_false p a m' hm
    rw [List.reverse_cons, List.dropWhile_append]
    by_cases he : (m'.reverse.dropWhile p).isEmpty
    · rw [if_pos he]
      simp [List.dropWhile_cons, hpa]
    · rw [if_neg he, List.reverse_append]
      simp [List.dropWhile_cons, hpa]

theorem trimChars_idem (l : List Char) : trimChars (trimChars l) = trimChars l := by
  have hm : (l.dropWhile isSpaceGo).dropWhile isSpaceGo = l.dropWhile isSpaceGo :=
    dropWhile_idem isSpaceGo l
  have ht : (trimChars l).dropWhile isSpaceGo = trimChars l :=
    dropWhile_trimRight isSpaceGo (l.dropWhile isSpaceGo) hm
  rw [trimChars, ht]
  have hrev : (trimChars l).reverse.dropWhile isSpaceGo = (trimChars l).reverse := by
    rw [trimChars, List.reverse_reverse]
    exact dropWhile_idem isSpaceGo _
  rw [hrev, List.reverse_reverse]

theorem trimSpace_idem (s : String) : trimSpace (trimSpace s) = trimSpace s := by
  show String.mk (trimChars (String.mk (trimChars s.data)).data) = String.mk (trimChars s.data)
  exact congrArg String.mk (trimChars_idem s.data)

theorem showForRow_in_range (env : Env) (st : AppState) (row : Int) (c : ContainerSummary)
    (h : ¬ (row - 1 < 0 ∨ (st.containers.length : Int) ≤ row - 1))
    (hc : st.containers[(row - 1).toNat]! = c) :
    showForRow env st row =
      ({ st with
          details :=
            match env.inspectResult c.ID with
            | .error e => "[red]Inspect error: " ++ e
            | .ok ins => detailText env c ins,
          logs :=
            match fetchLogs env c.ID with
            | .error e => "[red]Logs error: " ++ e
            | .ok logs => if trimSpace logs = "" then "(no logs)" else logs },
       [RemoteCall.inspectC c.ID, RemoteCall.logsC c.ID 5]) := by
  simp only [showForRow]
  rw [if_neg h, hc]

theorem showForRow_preserves (env : Env) (st : AppState) (row : Int) :
    (showForRow env st row).1.containers = st.containers
    ∧ (showForRow env st row).1.selected = st.selected
    ∧ (showForRow env st row).1.table = st.table
    ∧ (showForRow env st row).1.status = st.status := by
  simp only [showForRow]
  split
  · exact ⟨rfl, rfl, rfl, rfl⟩
  · exact ⟨rfl, rfl, rfl, rfl⟩

theorem detailText_parse_none (env : Env) (c : ContainerSummary) (ins : Inspect)
    (h : env.parseRFC3339 ins.State.StartedAt = none) :
    detailText env c ins =
      "[::b]Name:[-] " ++ c.Name ++ "\n" ++
      "[::b]ID:[-] " ++ c.ID ++ "\n" ++
      "[::b]Image:[-] " ++ c.Image ++ "\n" ++
      "[::b]State:[-] " ++ ins.State.Status ++ "\n" ++
      "[::b]Status:[-] " ++ c.Status ++ "\n" := by
  simp only [detailText, parseTime, h]
  rw [if_neg (fun hne => hne rfl)]
  rw [String.append_empty]

theorem detailText_parse_some (env : Env) (c : ContainerSummary) (ins : Inspect) (ts : Int)
    (h : env.parseRFC3339 ins.State.StartedAt = some ts) (hts : ts ≠ 0) :
    detailText env c ins =
      "[::b]Name:[-] " ++ c.Name ++ "\n" ++
      "[::b]ID:[-] " ++ c.ID ++ "\n" ++
      "[::b]Image:[-] " ++ c.Image ++ "\n" ++
      "[::b]State:[-] " ++ ins.State.Status ++ "\n" ++
      "[::b]Status:[-] " ++ c.Status ++ "\n" ++
      ("[::b]Started:[-] " ++ env.fmtRFC1123 ts ++ " (" ++ since env.now ts ++ " ago)\n") := by
  simp only [detailText, parseTime, h]
  rw [if_pos hts]

/-- C2 (amended): when the inspect call succeeds but the start-timestamp
string does not parse, rendering still succeeds and the refresh is not
aborted — the parse resolves to the zero-time sentinel and the detail text
is exactly the five labelled lines with the `Started` line omitted.  (The
original claim that the detail text shows an explicit "not available"
sentinel is refuted by the counterexample: no such text is rendered.) -/
theorem C2_unparseable_timestamp (env : Env) (st : AppState) (row : Int)
    (c : ContainerSummary) (ins : Inspect) (records : List ContainerRecord)
    (hrow : ¬ (row - 1 < 0 ∨ (st.containers.length : Int) ≤ row - 1))
    (hc : st.containers[(row - 1).toNat]! = c)
    (hins : env.inspectResult c.ID = .ok ins)
    (hparse : env.parseRFC3339 ins.State.StartedAt = none)
    (hlist : env.listResult = .ok records) :
    parseTime env.parseRFC3339 ins.State.StartedAt = 0
    ∧ (showForRow env st row).1.details =
        "[::b]Name:[-] " ++ c.Name ++ "\n" ++
        "[::b]ID:[-] " ++ c.ID ++ "\n" ++
        "[::b]Image:[-] " ++ c.Image ++ "\n" ++
        "[::b]State:[-] " ++ ins.State.Status ++ "\n" ++
        "[::b]Status:[-] " ++ c.Status ++ "\n"
    ∧ (refresh env st).2.1 = none := by
  refine ⟨by simp [parseTime, hparse], ?_, ?_⟩
  · rw [showForRow_in_range env st row c hrow hc]
    simp only [hins]
    exact detailText_parse_none env c ins hparse
  · rw [refresh, hlist]
    simp only
    split <;> rfl

set_option maxRecDepth 8192 in
/-- C2 counterexample: with an unparseable start timestamp, the rendered
detail text is exactly the five labelled lines — it contains no
"not available" sentinel (and no `Started` line) anywhere. -/
theorem C2_counterexample :
    (showForRow envOk stOne 1).1.details =
      "[::b]Name:[-] web\n[::b]ID:[-] c1\n[::b]Image:[-] nginx\n[::b]State:[-] running\n[::b]Status:[-] Up\n"
    ∧ ¬ ("not available".data <:+: (showForRow envOk stOne 1).1.details.data)
    ∧ ¬ ("Started".data <:+: (showForRow envOk stOne 1).1.details.data) := by
  refine ⟨by decide, by decide, by decide⟩

theorem C2_witness :
    (¬ ((1 : Int) - 1 < 0 ∨ (stOne.containers.length : Int) ≤ (1 : Int) - 1))
    ∧ (showForRow envOk stOne 1).1.details =
        "[::b]Name:[-] " ++ "web" ++ "\n" ++
        "[::b]ID:[-] " ++ "c1" ++ "\n" ++
        "[::b]Image:[-] " ++ "nginx" ++ "\n" ++
        "[::b]State:[-] " ++ "running" ++ "\n" ++
        "[::b]Status:[-] " ++ "Up" ++ "\n"
    ∧ (refresh envOk stOne).2.1 = none := by
  have h := C2_unparseable_timestamp envOk stOne 1
    ⟨"c1", "web", "nginx", "running", "Up", "-"⟩ ⟨⟨"running", "garbage-timestamp"⟩⟩
    [⟨"c1", ["/web"], "nginx", "running", "Up 5 minutes", []⟩]
    (by decide) (by decide) rfl rfl rfl
  exact ⟨by decide, h.2.1, h.2.2⟩

/-- C4: when the inspect call fails but the log fetch succeeds, the detail
pane carries exactly the inline inspect-error message, the log fetch is
still issued, and the logs pane shows the processed fetched content,
unaffected by the inspect failure. -/
theorem C4_inspect_failure_isolated (env : Env) (st : AppState) (row : Int)
    (c : ContainerSummary) (e raw : String)
    (hrow : ¬ (row - 1 < 0 ∨ (st.containers.length : Int) ≤ row - 1))
    (hc : st.containers[(row - 1).toNat]! = c)
    (hins : env.inspectResult c.ID = .error e)
    (hlogs : env.logsResult c.ID = .ok raw) :
    (showForRow env st row).1.details = "[red]Inspect error: " ++ e
    ∧ (showForRow env st row).2 = [RemoteCall.inspectC c.ID, RemoteCall.logsC c.ID 5]
    ∧ (showForRow env st row).1.logs =
        (if trimSpace (removeCR raw) = "" then "(no logs)"
         else trimSpace (removeCR raw)) := by
  rw [showForRow_in_range env st row c hrow hc]
  refine ⟨by simp [hins], rfl, ?_⟩
  simp only [fetchLogs, hlogs]
  rw [trimSpace_idem]

theorem C4_witness :
    envInsFail.inspectResult "c1" = .error "no such container"
    ∧ envInsFail.logsResult "c1" = .ok "hello\rworld\n"
    ∧ (showForRow envInsFail stOne 1).1.details = "[red]Inspect error: " ++ "no such container"
    ∧ (showForRow envInsFail stOne 1).1.logs =
        (if trimSpace (removeCR "hello\rworld\n") = "" then "(no logs)"
         else trimSpace (removeCR "hello\rworld\n")) := by
  have h := C4_inspect_failure_isolated envInsFail stOne 1
    ⟨"c1", "web", "nginx", "running", "Up", "-"⟩ "no such container" "hello\rworld\n"
    (by decide) (by decide) rfl rfl
  exact ⟨rfl, rfl, h.1, h.2.2⟩

/-- C9: for every successful log fetch, the displayed log text is the raw
content with carriage returns removed and surrounding whitespace trimmed;
if that trimmed text is empty, the logs pane shows exactly "(no logs)". -/
theorem C9_logs_display (env : Env) (st : AppState) (row : Int)
    (c : ContainerSummary) (raw : String)
    (hrow : ¬ (row - 1 < 0 ∨ (st.containers.length : Int) ≤ row - 1))
    (hc : st.containers[(row - 1).toNat]! = c)
    (hlogs : env.logsResult c.ID = .ok raw) :
    (showForRow env st row).1.logs =
      (if trimSpace (removeCR raw) = "" then "(no logs)"
       else trimSpace (removeCR raw)) := by
  rw [showForRow_in_range env st row c hrow hc]
  simp only [fetchLogs, hlogs]
  rw [trimSpace_idem]

theorem C9_witness :
    envOk.logsResult "c1" = .ok "  \r\n "
    ∧ trimSpace (removeCR "  \r\n ") = ""
    ∧ (showForRow envOk stOne 1).1.logs = "(no logs)"
    ∧ (showForRow envOk stOne 1).1.logs =
        (if trimSpace (removeCR "  \r\n ") = "" then "(no logs)"
         else trimSpace (removeCR "  \r\n ")) := by
  have h := C9_logs_display envOk stOne 1
    ⟨"c1", "web", "nginx", "running", "Up", "-"⟩ "  \r\n "
    (by decide) (by decide) rfl
  exact ⟨rfl, by decide, by rw [h]; decide, h⟩

theorem tdiv_nonpos_of_nonpos (a b : Int) (ha : a ≤ 0) (hb : 0 ≤ b) :
    a.tdiv b ≤ 0 := by
  have hneg : a.tdiv b = -((-a).tdiv b) := by
    rw [Int.neg_tdiv, neg_neg]
  have hnn : 0 ≤ (-a).tdiv b := Int.tdiv_nonneg (by omega) hb
  omega

/-- C10: a start timestamp in the future of the clock (negative elapsed
duration) still lands in the seconds bucket with a truncated non-positive
count (never an error, never clamped to zero), and the `Started` line is
still rendered; concretely a start 5 seconds ahead renders "-5 seconds". -/
theorem C10_future_timestamp (env : Env) (st : AppState) (row : Int)
    (c : ContainerSummary) (ins : Inspect) (ts : Int)
    (hrow : ¬ (row - 1 < 0 ∨ (st.containers.length : Int) ≤ row - 1))
    (hc : st.containers[(row - 1).toNat]! = c)
    (hins : env.inspectResult c.ID = .ok ins)
    (hparse : env.parseRFC3339 ins.State.StartedAt = some ts)
    (hts : ts ≠ 0)
    (hneg : env.now - ts < 0) :
    since env.now ts = toString (Int.tdiv (env.now - ts) 1000000000) ++ " seconds"
    ∧ Int.tdiv (env.now - ts) 1000000000 ≤ 0
    ∧ (showForRow env st row).1.details =
        "[::b]Name:[-] " ++ c.Name ++ "\n" ++
        "[::b]ID:[-] " ++ c.ID ++ "\n" ++
        "[::b]Image:[-] " ++ c.Image ++ "\n" ++
        "[::b]State:[-] " ++ ins.State.Status ++ "\n" ++
        "[::b]Status:[-] " ++ c.Status ++ "\n" ++
        ("[::b]Started:[-] " ++ env.fmtRFC1123 ts ++ " (" ++
          (toString (Int.tdiv (env.now - ts) 1000000000) ++ " seconds") ++ " ago)\n")
    ∧ since 0 5000000000 = "-5 seconds" := by
  have hsec : since env.now ts = toString (Int.tdiv (env.now - ts) 1000000000) ++ " seconds" := by
    simp only [since]
    rw [if_pos (by omega)]
  refine ⟨hsec, tdiv_nonpos_of_nonpos _ _ (by omega) (by omega), ?_, by decide⟩
  rw [showForRow_in_range env st row c hrow hc]
  simp only [hins]
  rw [detailText_parse_some env c ins ts hparse hts, hsec]

theorem C10_witness :
    envFuture.now - 5000000000 < 0
    ∧ since envFuture.now 5000000000 =
        toString (Int.tdiv (envFuture.now - 5000000000) 1000000000) ++ " seconds"
    ∧ (showForRow envFuture stOne 1).1.details =
        "[::b]Name:[-] " ++ "web" ++ "\n" ++
        "[::b]ID:[-] " ++ "c1" ++ "\n" ++
        "[::b]Image:[-] " ++ "nginx" ++ "\n" ++
        "[::b]State:[-] " ++ "running" ++ "\n" ++
        "[::b]Status:[-] " ++ "Up" ++ "\n" ++
        ("[::b]Started:[-] " ++ "Thu, 01 Jan 2026 00:00:05 UTC" ++ " (" ++
          (toString (Int.tdiv (envFuture.now - 5000000000) 1000000000) ++ " seconds") ++ " ago)\n") := by
  have h := C10_future_timestamp envFuture stOne 1
    ⟨"c1", "web", "nginx", "running", "Up", "-"⟩ ⟨⟨"running", "2026-01-01T00:00:05Z"⟩⟩
    5000000000
    (by decide) (by decide) rfl rfl (by decide) (by decide)
  exact ⟨by decide, h.1, h.2.2.1⟩

/-- C5: after a successful refresh, a non-empty summary list leads to row 1
being selected and `showForRow` being triggered for it (its two remote
calls are the refresh's calls); an empty list leads to the details pane
reading "No containers found.", the logs pane cleared, and no inspect or
log call issued. -/
theorem C5_refresh_outcome (env : Env) (st : AppState) (records : List ContainerRecord)
    (h : env.listResult = .ok records) :
    (buildSummaries records ≠ [] →
      (refresh env st).1.selected = some 1
      ∧ refresh env st =
          ((showForRow env (refreshedSelectedState env st records) 1).1, none,
           (showForRow env (refreshedSelectedState env st records) 1).2))
    ∧ (buildSummaries records = [] →
      (refresh env st).1.details = "No containers found."
      ∧ (refresh env st).1.logs = ""
      ∧ (refresh env st).2.2 = []) := by
  constructor
  · intro hne
    have hlen : 0 < (buildSummaries records).length := List.length_pos.mpr hne
    have href : refresh env st =
        ((showForRow env (refreshedSelectedState env st records) 1).1, none,
         (showForRow env (refreshedSelectedState env st records) 1).2) := by
      rw [refresh, h]
      simp only
      rw [if_pos hlen]
      rfl
    refine ⟨?_, href⟩
    rw [href]
    exact (showForRow_preserves env (refreshedSelectedState env st records) 1).2.1
  · intro hemp
    have hlen : ¬ 0 < (buildSummaries records).length := by
      rw [hemp]
      simp
    rw [refresh, h]
    simp only
    rw [if_neg hlen]
    exact ⟨rfl, rfl, rfl⟩

theorem C5_witness :
    envOk.listResult = .ok [⟨"c1", ["/web"], "nginx", "running", "Up 5 minutes", []⟩]
    ∧ (refresh envOk stNull).1.selected = some 1
    ∧ envEmpty.listResult = .ok []
    ∧ (refresh envEmpty stNull).1.details = "No containers found."
    ∧ (refresh envEmpty stNull).1.logs = ""
    ∧ (refresh envEmpty stNull).2.2 = [] := by
  have h1 := (C5_refresh_outcome envOk stNull
    [⟨"c1", ["/web"], "nginx", "running", "Up 5 minutes", []⟩] rfl).1 (by decide)
  have h2 := (C5_refresh_outcome envEmpty stNull [] rfl).2 (by decide)
  exact ⟨rfl, h1.1, rfl, h2.1, h2.2.1, h2.2.2⟩

end DockerHelp
